import Mathlib

/-!
Verification of the inheritable task-local library (tokio-inherit-task-local).

The library stores, per running task, one optional table mapping registered
slot identifiers to type-erased shared values.  We embed the data model and
the operations of src/lib.rs shallowly:

* values of type `Arc<dyn Any + Send + Sync>` become `DynVal`, a payload
  tagged with the runtime type identifier recorded at `Arc::new`;
* `TaskLocalInheritableTable` becomes a list of optional `DynVal` cells;
* the tokio single-slot task local `INHERITABLE_TASK_LOCALS` becomes an
  explicit context argument of type `Option TaskLocalInheritableTable`
  (`none` models a task for which no value was ever set);
* panics become `Except PanicReason` results;
* the process-wide counter `NEXT_KEY` becomes an explicit counter argument.

A small computation language `Comp` with an interpreter `run` models futures
that read slots, enter scopes, and cross spawn boundaries (with or without
the `inherit_task_local` wrapper), following the semantics of the tokio
executor at its interface: a task spawned without a wrapper starts with no
task-local value set, while polling a `TaskLocalFuture` installs its stored
value for the inner future regardless of the state of the polling worker.
-/

namespace TokioInheritTaskLocal

/-- A type-erased shared value, modelling an `Arc` of `dyn Any + Send + Sync`.
The field `ty` is the runtime type identifier of the stored `T` recorded when
the value was erased; `val` is the payload. A checked downcast to static type
tag `u` succeeds exactly when `ty = u`. -/
structure DynVal where
  ty : Nat
  val : Nat
  deriving DecidableEq, Repr

/-- Models `TaskLocalInheritableTable`, a boxed slice of optional shared
values, one cell per slot identifier known when the table was built. -/
structure TaskLocalInheritableTable where
  inner : List (Option DynVal)
  deriving DecidableEq, Repr

/-- The table built by `TaskLocalInheritableTable::new(Box::new([]))`. -/
def emptyTable : TaskLocalInheritableTable := ⟨[]⟩

/-- Models `InheritableLocalKey<T>`: the issued identifier `key` plus the
static type `T` of the slot, represented by its type tag `ty`. -/
structure InheritableLocalKey where
  key : Nat
  ty : Nat
  deriving DecidableEq, Repr

/-- Models `InheritableLocalKey::<T>::_new`: read the process-wide counter
`NEXT_KEY`, use its value as the fresh identifier, and increment it
(`NEXT_KEY.fetch_add(1, Ordering::Relaxed)`). The counter is threaded
explicitly; `ty` is the type tag of the declared static type `T`. -/
def _new (ty : Nat) (nextKey : Nat) : InheritableLocalKey × Nat :=
  (⟨nextKey, ty⟩, nextKey + 1)

/-- Registers one slot per entry of `tys` in order via `_new`, starting from
counter value `c`, as the `inheritable_task_local!` declarations do during
static initialization. Returns the issued keys and the final counter. -/
def registerMany (tys : List Nat) (c : Nat) : List InheritableLocalKey × Nat :=
  match tys with
  | [] => ([], c)
  | ty :: rest =>
    let p := _new ty c
    let q := registerMany rest p.2
    (p.1 :: q.1, q.2)

/-- Models `new_task_local_table`: a table with one empty cell per currently
registered key (`vec![None; NEXT_KEY.load(Ordering::Relaxed)]`). -/
def new_task_local_table (nextKey : Nat) : TaskLocalInheritableTable :=
  ⟨List.replicate nextKey none⟩

/-- Models `maybe_init_task_locals`: replace the table by a freshly sized one
exactly when it has zero cells; a non-empty table is left untouched. -/
def maybe_init_task_locals (nextKey : Nat) (t : TaskLocalInheritableTable) :
    TaskLocalInheritableTable :=
  if t.inner.isEmpty then new_task_local_table nextKey else t

/-- Reasons a library call aborts (panics). -/
inductive PanicReason where
  /-- The tokio task local is accessed with `with` while no value is set. -/
  | notInTokio
  /-- Message: no inheritable task locals are defined (index out of range). -/
  | noLocals
  /-- Message: inheritable task local was not defined (cell empty). -/
  | notDefined
  /-- Message: internal was not of correct type (failed downcast). -/
  | badDowncast
  /-- The indexed store `inner[self.key] = ...` in `scope`/`sync_scope` is out
  of bounds. -/
  | storeOutOfBounds
  deriving DecidableEq, Repr

/-- The clone-and-init expression shared verbatim by `scope` and `sync_scope`:
`INHERITABLE_TASK_LOCALS.try_with(clone then maybe_init).unwrap_or_else(new)`
produces a private copy of the active table, or a freshly sized table when no
context is active. -/
def scopeBase (nextKey : Nat) (ctx : Option TaskLocalInheritableTable) :
    TaskLocalInheritableTable :=
  match ctx with
  | some t => maybe_init_task_locals nextKey t
  | none => new_task_local_table nextKey

/-- Models the table computation of `InheritableLocalKey::scope`
(lib.rs 183-196): build the private copy via `scopeBase`, then execute the
indexed store `new_task_locals.inner[self.key] = Some(Arc::new(value))`. The
store panics when `self.key` is out of bounds of the copy, modelled by
`none`. -/
def scopeTable (nextKey : Nat) (ctx : Option TaskLocalInheritableTable)
    (k : InheritableLocalKey) (v : Nat) : Option TaskLocalInheritableTable :=
  let newLocals := scopeBase nextKey ctx
  if k.key < newLocals.inner.length then
    some ⟨newLocals.inner.set k.key (some ⟨k.ty, v⟩)⟩
  else none

/-- The table computation of `InheritableLocalKey::sync_scope`
(lib.rs 224-237); its body in the source is textually identical to the one in
`scope`. -/
def syncScopeTable (nextKey : Nat) (ctx : Option TaskLocalInheritableTable)
    (k : InheritableLocalKey) (v : Nat) : Option TaskLocalInheritableTable :=
  let newLocals := scopeBase nextKey ctx
  if k.key < newLocals.inner.length then
    some ⟨newLocals.inner.set k.key (some ⟨k.ty, v⟩)⟩
  else none

/-- Models `InheritableLocalKey::with` applied to closure `f`: look up the
tokio task local (panic when unset), index the table at `self.key` (panic when
out of range), unwrap the cell (panic when empty), downcast (panic on type
mismatch), then apply `f` to the stored value. -/
def withRun (ctx : Option TaskLocalInheritableTable) (k : InheritableLocalKey)
    (f : Nat → Nat) : Except PanicReason Nat :=
  match ctx with
  | none => .error .notInTokio
  | some t =>
    match t.inner[k.key]? with
    | none => .error .noLocals
    | some none => .error .notDefined
    | some (some dv) =>
      if dv.ty = k.ty then .ok (f dv.val) else .error .badDowncast

/-- Models `InheritableAccessError`. -/
inductive InheritableAccessError where
  /-- Task locals are available, but this key has no corresponding value. -/
  | NotInTable
  /-- Task locals are initialized, but none of them have been set. -/
  | TableEmpty
  /-- No slot corresponds to this key. -/
  | InvalidKey
  /-- Inheritable task locals are not initialized for this future at all. -/
  | NotInTokio
  deriving DecidableEq, Repr

/-- Models `InheritableLocalKey::try_with` applied to closure `f`: when the
tokio task local is unset the result is `Err(NotInTokio)`; otherwise an empty
table yields `Err(TableEmpty)`, an out-of-range key `Err(InvalidKey)`, an
empty cell `Err(NotInTable)`, and a populated cell is downcast (the failed
downcast is still a panic, the outer `Except`) and fed to `f`. -/
def try_with (ctx : Option TaskLocalInheritableTable) (k : InheritableLocalKey)
    (f : Nat → Nat) :
    Except PanicReason (Except InheritableAccessError Nat) :=
  match ctx with
  | none => .ok (.error .NotInTokio)
  | some t =>
    if t.inner.isEmpty then .ok (.error .TableEmpty)
    else
      match t.inner[k.key]? with
      | none => .ok (.error .InvalidKey)
      | some none => .ok (.error .NotInTable)
      | some (some dv) =>
        if dv.ty = k.ty then .ok (.ok (f dv.val)) else .error .badDowncast

/-- Models the snapshot taken by `inherit_task_local` at the moment the
wrapper is applied: the table active for the calling context, or the empty
table when none is active
(`INHERITABLE_TASK_LOCALS.try_with(clone).unwrap_or_else(empty)`). -/
def inheritSnapshot (ctx : Option TaskLocalInheritableTable) :
    TaskLocalInheritableTable :=
  match ctx with
  | some t => t
  | none => emptyTable

/-- Futures appearing in the tests and doc examples: read a slot with `with`
or `try_with`, bind a slot for a body via `scope`, sequence two futures, and
hand a body across a spawn boundary, either bare (`tokio::spawn(body)`) or
wrapped (`tokio::spawn(body.inherit_task_local())`). -/
inductive Comp where
  | readWith (k : InheritableLocalKey)
  | readTry (k : InheritableLocalKey)
  | scope (k : InheritableLocalKey) (v : Nat) (body : Comp)
  | seq (c1 c2 : Comp)
  | spawn (body : Comp)
  | spawnInherit (body : Comp)
  deriving DecidableEq, Repr

/-- Interpreter for `Comp` at registry width `nextKey` and active context
`ctx`. Outcomes: `.error p` is a panic, `.ok (.error e)` is a `try_with`
failure observed by the program, `.ok (.ok v)` is a value. A bare spawn runs
its body in a task with no task-local value set (the executor guarantee for a
fresh task); a wrapped spawn snapshots the context at the wrapping point and
the body then runs with exactly that snapshot installed. A scope wrapper
restores the previous context when its extent ends, so the continuation of a
`seq` runs at the outer context. -/
def run (nextKey : Nat) :
    Comp → Option TaskLocalInheritableTable →
    Except PanicReason (Except InheritableAccessError Nat)
  | .readWith k, ctx => (withRun ctx k id).map .ok
  | .readTry k, ctx => try_with ctx k id
  | .scope k v body, ctx =>
    match scopeTable nextKey ctx k v with
    | some t => run nextKey body (some t)
    | none => .error .storeOutOfBounds
  | .seq c1 c2, ctx =>
    match run nextKey c1 ctx with
    | .error p => .error p
    | .ok _ => run nextKey c2 ctx
  | .spawn body, _ctx => run nextKey body none
  | .spawnInherit body, ctx => run nextKey body (some (inheritSnapshot ctx))

/-- Models `FutureInheritTaskLocal::inherit_task_local` (lib.rs 92-103): at
the moment of the call, snapshot the active table and pair it with the
wrapped future, producing the `TaskLocalFuture`. -/
def inherit_task_local (ctx : Option TaskLocalInheritableTable) (body : Comp) :
    TaskLocalInheritableTable × Comp :=
  (inheritSnapshot ctx, body)

/-- Polling the `TaskLocalFuture` returned by `inherit_task_local` installs
its stored table for the inner future for its whole extent; the context of
the polling worker is not consulted. -/
def pollTaskLocal (nextKey : Nat) (f : TaskLocalInheritableTable × Comp)
    (_workerCtx : Option TaskLocalInheritableTable) :
    Except PanicReason (Except InheritableAccessError Nat) :=
  run nextKey f.2 (some f.1)

/-- A heap of live tables, each identified by its index; models the separate
allocations behind the `Box` of cells of each table. -/
abbrev Heap := List TaskLocalInheritableTable

/-- An in-place store into cell `idx` of the table with identity `tid` on the
heap, as performed by `new_task_locals.inner[self.key] = ...`; fails when the
index is out of bounds of that table. -/
def heapStore (h : Heap) (tid : Nat) (idx : Nat) (dv : DynVal) : Option Heap :=
  match h[tid]? with
  | none => none
  | some t =>
    if idx < t.inner.length then
      some (h.set tid ⟨t.inner.set idx (some dv)⟩)
    else none

/-- The table computation of `scope`/`sync_scope` with allocation and
mutation made explicit against a heap of live tables: `clone` allocates a
fresh table (a new heap identity holding the same cells), `maybe_init`
applies to the clone, and the indexed store mutates only the fresh identity.
Returns the new heap and the identity of the stored-into table. -/
def scopeHeap (nextKey : Nat) (h : Heap) (i : Nat) (k : InheritableLocalKey)
    (v : Nat) : Option (Heap × Nat) :=
  let cloned := maybe_init_task_locals nextKey (h.getD i emptyTable)
  let h1 := h ++ [cloned]
  let newId := h.length
  match heapStore h1 newId k.key ⟨k.ty, v⟩ with
  | some h2 => some (h2, newId)
  | none => none

/-- A table is well typed for a type assignment `tagOf` on slot identifiers
when every populated cell holds a value of the static type registered for its
index. -/
def WellTyped (tagOf : Nat → Nat) (t : TaskLocalInheritableTable) : Prop :=
  ∀ i dv, t.inner[i]? = some (some dv) → dv.ty = tagOf i

/-- Tables reachable by the library under a fixed type assignment `tagOf` and
registry width `nextKey`: the empty table (a fresh task, or the snapshot of a
context with none active), a freshly initialized table, and the result of a
`scope`/`sync_scope` store through a key whose static type matches its
registered identifier. Snapshots taken by `inherit_task_local` propagate
tables unchanged, so no separate constructor is needed for them. -/
inductive ReachableTable (tagOf : Nat → Nat) (nextKey : Nat) :
    TaskLocalInheritableTable → Prop where
  | empty : ReachableTable tagOf nextKey emptyTable
  | fresh : ReachableTable tagOf nextKey (new_task_local_table nextKey)
  | scopeStep (t t2 : TaskLocalInheritableTable) (k : InheritableLocalKey)
      (v : Nat) :
      ReachableTable tagOf nextKey t → k.ty = tagOf k.key →
      scopeTable nextKey (some t) k v = some t2 →
      ReachableTable tagOf nextKey t2

/-! Helper lemmas -/

/-- Characterization of a successful `scope`/`sync_scope` store: the key is in
bounds of the private copy and the result holds the copy with the cell set. -/
theorem scopeTable_eq_some {nextKey : Nat} {ctx : Option TaskLocalInheritableTable}
    {k : InheritableLocalKey} {v : Nat} {t2 : TaskLocalInheritableTable}
    (h : scopeTable nextKey ctx k v = some t2) :
    k.key < (scopeBase nextKey ctx).inner.length
    ∧ t2.inner = (scopeBase nextKey ctx).inner.set k.key (some ⟨k.ty, v⟩) := by
  by_cases hk : k.key < (scopeBase nextKey ctx).inner.length
  · refine ⟨hk, ?_⟩
    simp only [scopeTable, if_pos hk] at h
    obtain rfl := (Option.some.inj h).symm
    rfl
  · simp only [scopeTable, if_neg hk] at h
    cases h

/-- After a successful store, the cell at the key holds the stored value. -/
theorem scopeTable_cell {nextKey : Nat} {ctx : Option TaskLocalInheritableTable}
    {k : InheritableLocalKey} {v : Nat} {t2 : TaskLocalInheritableTable}
    (h : scopeTable nextKey ctx k v = some t2) :
    t2.inner[k.key]? = some (some ⟨k.ty, v⟩) := by
  obtain ⟨hk, hset⟩ := scopeTable_eq_some h
  rw [hset]
  exact List.getElem?_set_self hk

/-- Reading a populated, correctly typed cell with `with` applies the closure
to the stored payload. -/
theorem withRun_cell {t : TaskLocalInheritableTable} {k : InheritableLocalKey}
    {v : Nat} (f : Nat → Nat) (ht : t.inner[k.key]? = some (some ⟨k.ty, v⟩)) :
    withRun (some t) k f = .ok (f v) := by
  simp [withRun, ht]

/-- The two scope forms compute the same table. -/
theorem syncScopeTable_eq_scopeTable : syncScopeTable = scopeTable := rfl

/-- Issuing keys from counter value `c` yields the consecutive identifiers
starting at `c` and advances the counter by the number of registrations. -/
theorem registerMany_spec (tys : List Nat) (c : Nat) :
    (registerMany tys c).1.map InheritableLocalKey.key = List.range' c tys.length
    ∧ (registerMany tys c).2 = c + tys.length := by
  induction tys generalizing c with
  | nil => simp [registerMany]
  | cons ty rest ih =>
    have h := ih (c + 1)
    constructor
    · simp only [registerMany, _new, List.map_cons, List.length_cons,
        List.range'_succ]
      rw [h.1]
    · simp only [registerMany, _new, List.length_cons]
      rw [h.2]
      omega

/-- The empty table is well typed. -/
theorem wellTyped_emptyTable (tagOf : Nat → Nat) : WellTyped tagOf emptyTable := by
  intro i dv h
  simp [emptyTable] at h

/-- A freshly initialized table is well typed: all of its cells are empty. -/
theorem wellTyped_new_table (tagOf : Nat → Nat) (nextKey : Nat) :
    WellTyped tagOf (new_task_local_table nextKey) := by
  intro i dv h
  simp only [new_task_local_table, List.getElem?_replicate] at h
  split at h <;> simp_all

/-- Lazy initialization preserves well-typedness. -/
theorem wellTyped_maybe_init {tagOf : Nat → Nat} {t : TaskLocalInheritableTable}
    (nextKey : Nat) (h : WellTyped tagOf t) :
    WellTyped tagOf (maybe_init_task_locals nextKey t) := by
  unfold maybe_init_task_locals
  split
  · exact wellTyped_new_table tagOf nextKey
  · exact h

/-- A store through a key whose static type matches its registered identifier
preserves well-typedness. -/
theorem wellTyped_scopeTable {tagOf : Nat → Nat} {nextKey : Nat}
    {t t2 : TaskLocalInheritableTable} {k : InheritableLocalKey} {v : Nat}
    (hwt : WellTyped tagOf t) (hk : k.ty = tagOf k.key)
    (h : scopeTable nextKey (some t) k v = some t2) :
    WellTyped tagOf t2 := by
  obtain ⟨hlt, hset⟩ := scopeTable_eq_some h
  intro i dv hcell
  rw [hset] at hcell
  by_cases hik : k.key = i
  · subst hik
    rw [List.getElem?_set_self hlt] at hcell
    obtain rfl := Option.some.inj (Option.some.inj hcell)
    exact hk
  · rw [List.getElem?_set_ne hik] at hcell
    exact wellTyped_maybe_init nextKey hwt i dv hcell

/-- Every reachable table is well typed. -/
theorem wellTyped_of_reachable {tagOf : Nat → Nat} {nextKey : Nat}
    {t : TaskLocalInheritableTable} (h : ReachableTable tagOf nextKey t) :
    WellTyped tagOf t := by
  induction h with
  | empty => exact wellTyped_emptyTable tagOf
  | fresh => exact wellTyped_new_table tagOf nextKey
  | scopeStep t t2 k v _ hk hs ih => exact wellTyped_scopeTable ih hk hs

/-! Claims -/

/-- Claim C1: the table active for the calling context at the moment
`inherit_task_local` is applied is the one snapshotted — the snapshot of an
active table is exactly that table and the snapshot with no active context is
the empty table; the wrapped future observes the snapshotted table whatever
context the worker that later polls it carries; hence spawning a captured
read from inside a scope that bound slot `k` to `v` yields `v`. -/
theorem C1_capture_snapshot (nextKey : Nat)
    (ctx : Option TaskLocalInheritableTable) (k : InheritableLocalKey)
    (v : Nat) (t2 : TaskLocalInheritableTable)
    (hstore : scopeTable nextKey ctx k v = some t2) :
    (∀ w, pollTaskLocal nextKey (inherit_task_local (some t2) (.readWith k)) w
      = .ok (.ok v))
    ∧ run nextKey (.scope k v (.spawnInherit (.readWith k))) ctx = .ok (.ok v)
    ∧ (∀ body, (inherit_task_local none body).1 = emptyTable)
    ∧ (∀ t body, (inherit_task_local (some t) body).1 = t) := by
  have hcell := scopeTable_cell hstore
  have hw := withRun_cell id hcell
  refine ⟨?_, ?_, fun body => rfl, fun t body => rfl⟩
  · intro w
    simp [pollTaskLocal, inherit_task_local, inheritSnapshot, run, hw,
      Except.map]
  · simp [run, hstore, inheritSnapshot, hw, Except.map]

/-- Witness for C1: registry width 1, no outer context, slot 0 bound to 5;
the captured read yields 5 when polled by a worker with no context. -/
theorem C1_capture_snapshot_witness :
    pollTaskLocal 1 (inherit_task_local (some ⟨[some ⟨0, 5⟩]⟩)
      (.readWith ⟨0, 0⟩)) none = .ok (.ok 5) :=
  (C1_capture_snapshot 1 none ⟨0, 0⟩ 5 ⟨[some ⟨0, 5⟩]⟩ rfl).1 none

/-- Claim C2: running `scope` (or `sync_scope`, which computes the same
table) with slot `k` bound to `v` makes `v` the value read for `k` inside the
body, shadowing whatever the active table previously held for `k`; when the
scope completes, the previously active context is again in force, so a
continuation reads whatever was bound before the scope, or gets the unbound
outcome if nothing was. -/
theorem C2_scope_shadow_restore (nextKey : Nat)
    (ctx : Option TaskLocalInheritableTable) (k : InheritableLocalKey)
    (v : Nat) (t2 : TaskLocalInheritableTable) (f : Nat → Nat) (body : Comp)
    (r : Except InheritableAccessError Nat)
    (hstore : scopeTable nextKey ctx k v = some t2)
    (hbody : run nextKey (.scope k v body) ctx = .ok r) :
    withRun (some t2) k f = .ok (f v)
    ∧ run nextKey (.scope k v (.readWith k)) ctx = .ok (.ok v)
    ∧ syncScopeTable nextKey ctx k v = scopeTable nextKey ctx k v
    ∧ (∀ rest, run nextKey (.seq (.scope k v body) rest) ctx
        = run nextKey rest ctx) := by
  have hcell := scopeTable_cell hstore
  refine ⟨withRun_cell f hcell, ?_, rfl, ?_⟩
  · simp [run, hstore, withRun_cell id hcell, Except.map]
  · intro rest
    have hseq : run nextKey (.seq (.scope k v body) rest) ctx
        = match run nextKey (.scope k v body) ctx with
          | .error p => .error p
          | .ok _ => run nextKey rest ctx := rfl
    rw [hseq, hbody]

/-- Witness for C2: binding slot 0 to 5 over an empty context makes the read
yield 5 and the scope restore is exercised at a concrete continuation. -/
theorem C2_scope_shadow_restore_witness :
    withRun (some ⟨[some ⟨0, 5⟩]⟩) ⟨0, 0⟩ id = .ok 5
    ∧ run 1 (.seq (.scope ⟨0, 0⟩ 5 (.readWith ⟨0, 0⟩)) (.readTry ⟨0, 0⟩)) none
      = run 1 (.readTry ⟨0, 0⟩) none := by
  have h := C2_scope_shadow_restore 1 none ⟨0, 0⟩ 5 ⟨[some ⟨0, 5⟩]⟩ id
    (.readWith ⟨0, 0⟩) (.ok 5) rfl rfl
  exact ⟨h.1, h.2.2.2 (.readTry ⟨0, 0⟩)⟩

/-- Claim C3, counterexample: with two registered slots and an active table
that is non-empty but only one cell wide, entering a scope on the second slot
does not rebuild the duplicate to the registry width — lazy initialization
touches only empty tables — and the store at identifier 1 fails (index out of
bounds) instead of succeeding. -/
theorem C3_counterexample :
    maybe_init_task_locals 2 ⟨[some ⟨0, 7⟩]⟩ = ⟨[some ⟨0, 7⟩]⟩
    ∧ (⟨[some ⟨0, 7⟩]⟩ : TaskLocalInheritableTable).inner ≠ []
    ∧ (⟨[some ⟨0, 7⟩]⟩ : TaskLocalInheritableTable).inner.length < 2
    ∧ scopeTable 2 (some ⟨[some ⟨0, 7⟩]⟩) ⟨1, 1⟩ 5 = none
    ∧ syncScopeTable 2 (some ⟨[some ⟨0, 7⟩]⟩) ⟨1, 1⟩ 5 = none :=
  ⟨rfl, by decide, by decide, rfl, rfl⟩

/-- Claim C3 as amended: the duplicate is rebuilt to the current registry
width, all cells empty, exactly when it is empty, and the store then
succeeds; a non-empty active table narrower than the registry is left at its
existing width, and a store at an identifier beyond that width fails rather
than succeeding. -/
theorem C3_amended_lazy_init (nextKey : Nat) (t : TaskLocalInheritableTable)
    (k : InheritableLocalKey) (v : Nat) (hk : k.key < nextKey) :
    (t.inner = [] →
      maybe_init_task_locals nextKey t = new_task_local_table nextKey
      ∧ (∀ j, j < nextKey → (new_task_local_table nextKey).inner[j]? = some none)
      ∧ (∃ t2, scopeTable nextKey (some t) k v = some t2))
    ∧ (t.inner ≠ [] →
      maybe_init_task_locals nextKey t = t
      ∧ (t.inner.length ≤ k.key → scopeTable nextKey (some t) k v = none)) := by
  constructor
  · intro he
    have hmi : maybe_init_task_locals nextKey t = new_task_local_table nextKey := by
      simp [maybe_init_task_locals, he]
    refine ⟨hmi, ?_, ?_⟩
    · intro j hj
      simp [new_task_local_table, List.getElem?_replicate, hj]
    · refine ⟨⟨(new_task_local_table nextKey).inner.set k.key (some ⟨k.ty, v⟩)⟩, ?_⟩
      have hlt : k.key < (scopeBase nextKey (some t)).inner.length := by
        simp [scopeBase, hmi, new_task_local_table, hk]
      simp only [scopeTable, if_pos hlt]
      simp only [scopeBase, hmi]
  · intro hne
    have hmi : maybe_init_task_locals nextKey t = t := by
      simp [maybe_init_task_locals, List.isEmpty_iff, hne]
    refine ⟨hmi, ?_⟩
    intro hle
    have hnlt : ¬ k.key < (scopeBase nextKey (some t)).inner.length := by
      simp only [scopeBase, hmi]
      omega
    simp [scopeTable, hnlt]

/-- Witness for C3 as amended: one registered slot, empty active table; the
table is rebuilt to width 1 and the store at identifier 0 succeeds. -/
theorem C3_amended_lazy_init_witness :
    maybe_init_task_locals 1 ⟨[]⟩ = new_task_local_table 1
    ∧ (∃ t2, scopeTable 1 (some ⟨[]⟩) ⟨0, 0⟩ 5 = some t2) := by
  have h := C3_amended_lazy_init 1 ⟨[]⟩ ⟨0, 0⟩ 5 (by decide)
  exact ⟨(h.1 rfl).1, (h.1 rfl).2.2⟩

/-- Claim C4: with no active-table association at all, `try_with` returns the
no-scoping-context kind `NotInTokio`; with an active table in which some
other slot is bound but the cell of this slot is empty, it returns the
unbound-slot kind `NotInTable`; the two kinds are distinct, and in both cases
the call returns the discriminated failure rather than panicking. -/
theorem C4_try_with_kinds (t : TaskLocalInheritableTable)
    (k : InheritableLocalKey) (f : Nat → Nat) (j : Nat) (dv : DynVal)
    (hbound : t.inner[j]? = some (some dv))
    (hcell : t.inner[k.key]? = some none) :
    try_with none k f = .ok (.error .NotInTokio)
    ∧ try_with (some t) k f = .ok (.error .NotInTable)
    ∧ InheritableAccessError.NotInTokio ≠ InheritableAccessError.NotInTable := by
  have hne : t.inner.isEmpty = false := by
    cases hb : t.inner.isEmpty
    · rfl
    · exfalso
      rw [List.isEmpty_iff] at hb
      rw [hb] at hbound
      simp at hbound
  refine ⟨rfl, ?_, by decide⟩
  simp [try_with, hne, hcell]

/-- Witness for C4 at the table of the repository test
`fail_try_with_use_both`: slot 0 bound, slot 1 empty. -/
theorem C4_try_with_kinds_witness :
    try_with none ⟨1, 5⟩ id = .ok (.error .NotInTokio)
    ∧ try_with (some ⟨[some ⟨1, 7⟩, none]⟩) ⟨1, 5⟩ id
      = .ok (.error .NotInTable) := by
  have h := C4_try_with_kinds ⟨[some ⟨1, 7⟩, none]⟩ ⟨1, 5⟩ id 0 ⟨1, 7⟩ rfl rfl
  exact ⟨h.1, h.2.1⟩

/-- Claim C5: from inside a captured unit holding table `t`, a nested unit
spawned without the wrapper runs with no inherited bindings, so its
non-fallible read panics and its fallible read reports the error variant; a
wrapped spawn from inside the captured unit captures exactly the inherited
table, so a chain in which every spawn boundary is wrapped propagates a
binding of slot `k` to every level. -/
theorem C5_no_transitive_inheritance (nextKey : Nat)
    (t : TaskLocalInheritableTable) (k : InheritableLocalKey) (v : Nat)
    (body : Comp)
    (hcell : t.inner[k.key]? = some (some ⟨k.ty, v⟩)) :
    run nextKey (.spawn (.readWith k)) (some t) = .error .notInTokio
    ∧ run nextKey (.spawn (.readTry k)) (some t) = .ok (.error .NotInTokio)
    ∧ run nextKey (.spawnInherit body) (some t) = run nextKey body (some t)
    ∧ run nextKey (.spawnInherit (.spawnInherit (.readWith k))) (some t)
      = .ok (.ok v) := by
  refine ⟨rfl, rfl, rfl, ?_⟩
  simp [run, inheritSnapshot, withRun_cell id hcell, Except.map]

/-- Witness for C5: slot 0 bound to 5; the unwrapped nested spawn panics
while the fully wrapped two-level chain reads 5. -/
theorem C5_no_transitive_inheritance_witness :
    run 1 (.spawn (.readWith ⟨0, 0⟩)) (some ⟨[some ⟨0, 5⟩]⟩)
      = .error .notInTokio
    ∧ run 1 (.spawnInherit (.spawnInherit (.readWith ⟨0, 0⟩)))
        (some ⟨[some ⟨0, 5⟩]⟩) = .ok (.ok 5) := by
  have h := C5_no_transitive_inheritance 1 ⟨[some ⟨0, 5⟩]⟩ ⟨0, 0⟩ 5
    (.readWith ⟨0, 0⟩) rfl
  exact ⟨h.1, h.2.2.2⟩

/-- Claim C6: entering a scope mutates only the freshly allocated duplicate:
every table identity that existed on the heap before the call is unchanged by
the call, the stored-into identity is new, the table stored there is exactly
the table `scope`/`sync_scope` computes from the active one, and a sibling
holding any pre-existing identity reads all of its bindings unchanged. -/
theorem C6_copy_on_write (nextKey : Nat) (h : Heap) (i j : Nat)
    (k : InheritableLocalKey) (v : Nat) (h2 : Heap) (nid : Nat)
    (hj : j < h.length)
    (heq : scopeHeap nextKey h i k v = some (h2, nid)) :
    h2[j]? = h[j]? ∧ nid ≠ j
    ∧ h2[nid]? = scopeTable nextKey (some (h.getD i emptyTable)) k v
    ∧ (∀ k2 f, withRun (some ((h2[j]?).getD emptyTable)) k2 f
        = withRun (some ((h[j]?).getD emptyTable)) k2 f) := by
  have hat : (h ++ [maybe_init_task_locals nextKey (h.getD i emptyTable)])[h.length]?
      = some (maybe_init_task_locals nextKey (h.getD i emptyTable)) :=
    List.getElem?_concat_length _ _
  by_cases hlt :
      k.key < (maybe_init_task_locals nextKey (h.getD i emptyTable)).inner.length
  · simp only [scopeHeap, heapStore, hat, if_pos hlt] at heq
    obtain ⟨rfl, rfl⟩ := Prod.mk.inj (Option.some.inj heq)
    have hfr : ((h ++ [maybe_init_task_locals nextKey (h.getD i emptyTable)]).set
        h.length ⟨(maybe_init_task_locals nextKey (h.getD i emptyTable)).inner.set
          k.key (some ⟨k.ty, v⟩)⟩)[j]? = h[j]? := by
      rw [List.getElem?_set_ne (by omega)]
      exact List.getElem?_append_left hj
    refine ⟨hfr, by omega, ?_, ?_⟩
    · rw [List.getElem?_set_self (by simp)]
      simp only [scopeTable, scopeBase, if_pos hlt]
    · intro k2 f
      rw [hfr]
  · exfalso
    simp only [scopeHeap, heapStore, hat, if_neg hlt] at heq
    exact Option.noConfusion heq

/-- Witness for C6: a heap holding one width-1 table; a scope store on a
duplicate leaves identity 0 unchanged and writes identity 1. -/
theorem C6_copy_on_write_witness :
    ([⟨[none]⟩, ⟨[some ⟨0, 3⟩]⟩] : Heap)[0]? = ([⟨[none]⟩] : Heap)[0]?
    ∧ (1 : Nat) ≠ 0 := by
  have h := C6_copy_on_write 1 [⟨[none]⟩] 0 0 ⟨0, 0⟩ 3
    [⟨[none]⟩, ⟨[some ⟨0, 3⟩]⟩] 1 (by decide) rfl
  exact ⟨h.1, h.2.1⟩

/-- Claim C7: provided every populated cell at the key carries the static
type of the key, the non-fallible accessor panics exactly when the binding is
absent — no active table for the context, active table shorter than the
identifier, or empty cell — and when the cell is populated it applies the
closure to the stored value and returns its result. -/
theorem C7_with_panics_iff_absent (ctx : Option TaskLocalInheritableTable)
    (k : InheritableLocalKey) (f : Nat → Nat)
    (hty : ∀ t dv, ctx = some t → t.inner[k.key]? = some (some dv) →
      dv.ty = k.ty) :
    ((∃ p, withRun ctx k f = .error p) ↔
      ctx = none
      ∨ (∃ t, ctx = some t ∧ t.inner.length ≤ k.key)
      ∨ (∃ t, ctx = some t ∧ t.inner[k.key]? = some none))
    ∧ (∀ t dv, ctx = some t → t.inner[k.key]? = some (some dv) →
      withRun ctx k f = .ok (f dv.val)) := by
  constructor
  · cases ctx with
    | none =>
      exact iff_of_true ⟨.notInTokio, rfl⟩ (Or.inl rfl)
    | some t =>
      cases hc : t.inner[k.key]? with
      | none =>
        refine iff_of_true ⟨.noLocals, by simp [withRun, hc]⟩ ?_
        exact Or.inr (Or.inl ⟨t, rfl, by simpa using List.getElem?_eq_none_iff.mp hc⟩)
      | some o =>
        cases o with
        | none =>
          exact iff_of_true ⟨.notDefined, by simp [withRun, hc]⟩
            (Or.inr (Or.inr ⟨t, rfl, hc⟩))
        | some dv =>
          have hd : dv.ty = k.ty := hty t dv rfl hc
          refine iff_of_false ?_ ?_
          · rintro ⟨p, hp⟩
            simp [withRun, hc, hd] at hp
          · rintro (hn | ⟨t2, ht2, hlen⟩ | ⟨t2, ht2, hcc⟩)
            · cases hn
            · obtain rfl := Option.some.inj ht2
              rcases List.getElem?_eq_some.mp hc with ⟨hlt, _⟩
              omega
            · obtain rfl := Option.some.inj ht2
              rw [hc] at hcc
              cases Option.some.inj hcc
  · intro t dv ht hc
    have hd : dv.ty = k.ty := hty t dv ht hc
    subst ht
    simp [withRun, hc, hd]

/-- Witness for C7 at a populated, correctly typed cell: the accessor applies
the closure to the stored payload. -/
theorem C7_with_panics_iff_absent_witness :
    withRun (some ⟨[some ⟨2, 4⟩]⟩) ⟨0, 2⟩ id = .ok 4 := by
  have h := C7_with_panics_iff_absent (some ⟨[some ⟨2, 4⟩]⟩) ⟨0, 2⟩ id
    (by
      intro t dv ht hc
      injection ht with ht2
      subst ht2
      injection hc with hc2
      injection hc2 with hc3
      subst hc3
      rfl)
  exact h.2 ⟨[some ⟨2, 4⟩]⟩ ⟨2, 4⟩ rfl rfl

/-- Claim C8: in any table reachable through scope stores whose keys carry
the registered static type of their identifier, reading through a key
consistent with the registry never reaches the internal type-mismatch panic:
neither `with` nor `try_with` can fail the checked downcast. -/
theorem C8_downcast_never_fails (tagOf : Nat → Nat) (nextKey : Nat)
    (t : TaskLocalInheritableTable) (k : InheritableLocalKey) (f : Nat → Nat)
    (hreach : ReachableTable tagOf nextKey t) (hk : k.ty = tagOf k.key) :
    withRun (some t) k f ≠ .error .badDowncast
    ∧ try_with (some t) k f ≠ .error .badDowncast := by
  have hwt := wellTyped_of_reachable hreach
  constructor
  · cases hc : t.inner[k.key]? with
    | none => simp [withRun, hc]
    | some o =>
      cases o with
      | none => simp [withRun, hc]
      | some dv =>
        have hd : dv.ty = k.ty := by rw [hwt k.key dv hc, hk]
        simp [withRun, hc, hd]
  · by_cases he : t.inner.isEmpty
    · simp [try_with, he]
    · cases hc : t.inner[k.key]? with
      | none => simp [try_with, he, hc]
      | some o =>
        cases o with
        | none => simp [try_with, he, hc]
        | some dv =>
          have hd : dv.ty = k.ty := by rw [hwt k.key dv hc, hk]
          simp [try_with, he, hc, hd]

/-- Witness for C8: the table obtained by one scope store of value 5 through
slot 0 of type 0 is reachable, and both accessors avoid the downcast
panic. -/
theorem C8_downcast_never_fails_witness :
    withRun (some ⟨[some ⟨0, 5⟩]⟩) ⟨0, 0⟩ id ≠ .error .badDowncast
    ∧ try_with (some ⟨[some ⟨0, 5⟩]⟩) ⟨0, 0⟩ id ≠ .error .badDowncast :=
  C8_downcast_never_fails (fun _ => 0) 1 ⟨[some ⟨0, 5⟩]⟩ ⟨0, 0⟩ id
    (ReachableTable.scopeStep emptyTable ⟨[some ⟨0, 5⟩]⟩ ⟨0, 0⟩ 5
      ReachableTable.empty rfl rfl) rfl

/-- Claim C9: each registration returns the current counter value as the
fresh identifier and increments the process-wide counter by one; registering
`n` slots from a fresh process issues exactly the identifiers 0, ..., n-1 in
order, without duplicates, and leaves the counter at `n`. -/
theorem C9_registration_dense (tys : List Nat) (ty c : Nat) :
    (_new ty c).1.key = c
    ∧ (_new ty c).2 = c + 1
    ∧ (registerMany tys 0).1.map InheritableLocalKey.key = List.range tys.length
    ∧ ((registerMany tys 0).1.map InheritableLocalKey.key).Nodup
    ∧ (registerMany tys 0).2 = tys.length := by
  have h := registerMany_spec tys 0
  refine ⟨rfl, rfl, ?_, ?_, ?_⟩
  · rw [h.1, List.range_eq_range']
  · rw [h.1]
    exact List.nodup_range' 0 tys.length
  · rw [h.2]
    omega

/-- Claim C10: wrapping a future while no table is active for the caller
snapshots the empty table, so inside the wrapped future `try_with` reports
`TableEmpty` — an active table exists but has zero cells — and not
`NotInTokio`; outside the machinery it reports `NotInTokio`; the two kinds
are distinct, so running under the machinery with nothing ever bound is
distinguishable from not running under it at all. -/
theorem C10_empty_snapshot_table_empty (nextKey : Nat)
    (k : InheritableLocalKey) (f : Nat → Nat)
    (w : Option TaskLocalInheritableTable) :
    try_with (some (inheritSnapshot none)) k f = .ok (.error .TableEmpty)
    ∧ pollTaskLocal nextKey (inherit_task_local none (.readTry k)) w
      = .ok (.error .TableEmpty)
    ∧ run nextKey (.spawnInherit (.readTry k)) none = .ok (.error .TableEmpty)
    ∧ try_with none k f = .ok (.error .NotInTokio)
    ∧ InheritableAccessError.TableEmpty ≠ InheritableAccessError.NotInTokio :=
  ⟨rfl, rfl, rfl, rfl, by decide⟩

end TokioInheritTaskLocal
